import Mathlib

/-
Verification of the representation-selection and value-lowering engine of
rain-llvm, a compiler from the rain intermediate representation to LLVM.

The development shallowly embeds the Rust source. LLVM entities are
abstracted to first-order data: an LLVM basic type becomes `BTy`, an LLVM
basic value becomes `BVal`, a machine integer becomes a `Nat` reduced
modulo two to the bit width where the source truncates. Fallible Rust
functions returning `Result` become `Except Error`, and functions that can
also hit a Rust `panic` or an `unimplemented` macro return `BRes` or
`PRes`, whose extra constructor marks the fatal, non-recoverable class of
exits. Stateful code over the `Codegen` context becomes explicit state
passing over the `CG` structure.
-/

namespace RainLLVM

/-- Model of inkwell `BasicTypeEnum`, restricted to the shapes the engine
produces: integer types, pointer types, struct types, and pointers to
function types (produced when a function-represented member is stored in a
product). -/
inductive BTy : Type where
  | int (w : Nat)
  | ptrTo (t : BTy)
  | structOf (ts : List BTy)
  | ptrToFn (params : List BTy) (ret : BTy)

/-- Model of `ProductRepr`: the logical-position-to-physical-slot mapping
(`mapping[i]` holds the position of the i-th member in the struct, `none`
for an erased member) together with the physical struct field types. -/
structure ProductRepr : Type where
  mapping : List (Option Nat)
  repr : List BTy

/-- Model of `FunctionRepr`: the parameter `IxMap` (stored as the raw
`i32` entries of `repr.rs`), the physical parameter types and the return
type of the LLVM function type. -/
structure FunctionRepr : Type where
  mapping : List Int
  fparams : List BTy
  fret : BTy

/-- Model of `Repr`, the representation of a rain type. The `irrep`
variant exists in the `lib.rs` iteration of the enum and is matched by the
ternary and gamma lowering code; the `repr.rs` iteration omits it. -/
inductive Repr : Type where
  | ty (t : BTy)
  | func (f : FunctionRepr)
  | product (p : ProductRepr)
  | prop
  | empty
  | irrep

/-- Model of a code-generation error (`error.rs`), with the payload
strings dropped. -/
inductive Error : Type where
  | notConst
  | irrepresentable
  | invalidFuncRepr
  | noCurrentFunction
  | noCurrentBlock
  | internalError
  | notImplemented
  | valueError
  deriving DecidableEq

/-- Model of an LLVM basic value as far as the engine distinguishes them:
integer constants (width and bits), the n-th parameter of a function, the
result of a call, or a value produced by a load. -/
inductive BVal : Type where
  | intConst (w v : Nat)
  | paramOf (f i : Nat)
  | callRes
  | loadOf (p : BVal)
  deriving DecidableEq

/-- Model of `Val` (`repr.rs`): a lowered rain value. The `irrep` variant
exists only in the iterations of the enum used by the ternary and gamma
code. -/
inductive ValM : Type where
  | value (v : BVal)
  | function (f : Nat)
  | unit
  | contr
  | irrep
  deriving DecidableEq

/-- Result of running code that may return a value, return a recoverable
error, or abort with a panic-class condition (`panic`, `unimplemented`,
`unreachable`, failed `expect`). -/
inductive BRes (α : Type) : Type where
  | ok (a : α)
  | err (e : Error)
  | panicked
  deriving DecidableEq

/-- Result of running infallible-but-panicking code: either a value or a
panic-class abort. -/
inductive PRes (α : Type) : Type where
  | ok (a : α)
  | panicked
  deriving DecidableEq

/-! ## Finite type representation selection (`codegen/finite.rs`) -/

/-- Embedding of `Codegen::repr_finite` (`codegen/finite.rs`): the
representation of the finite type of cardinality `value`. The source
branches, in order, on `value == 0`, `== 1`, `== 2`, `< 1 << 8`,
`< 1 << 16`, `< 1 << 32`, `< 1 << 64`, with the 128-bit integer type as
the final branch. `Codegen::compile_finite` in `lib.rs` is the identical
earlier iteration of the same function. -/
def repr_finite (value : Nat) : Repr :=
  if value = 0 then Repr.empty
  else if value = 1 then Repr.prop
  else if value = 2 then Repr.ty (BTy.int 1)
  else if value < 2 ^ 8 then Repr.ty (BTy.int 8)
  else if value < 2 ^ 16 then Repr.ty (BTy.int 16)
  else if value < 2 ^ 32 then Repr.ty (BTy.int 32)
  else if value < 2 ^ 64 then Repr.ty (BTy.int 64)
  else Repr.ty (BTy.int 128)

/-- The scalar widths available to representation selection. -/
def scalarWidths : List Nat := [8, 16, 32, 64, 128]

/-- Reference function for the amended bit-width-selection claim, stated
independently of the if-chain: cardinality `n` with `3 ≤ n` selects the
smallest width `w` among 8, 16, 32, 64, 128 such that `n < 2 ^ w`, that
is, such that the scalar can hold the cardinality `n` itself (not merely
the largest value `n - 1`). -/
def finiteReprRanges (n : Nat) : Repr :=
  if n = 0 then Repr.empty
  else if n = 1 then Repr.prop
  else if n = 2 then Repr.ty (BTy.int 1)
  else
    match scalarWidths.find? (fun w => n < 2 ^ w) with
    | some w => Repr.ty (BTy.int w)
    | none => Repr.ty (BTy.int 128)

/-! ## Product type representation selection (`codegen/tuple.rs`) -/

/-- The drain loop inside the `Repr::Irrep` arm of `repr_product`: the
remaining member representations are consumed, errors propagate through
the `?` operator, and the flag records whether any remaining member is
`Repr::Empty`. -/
def rpDrain : List (Except Error Repr) → Bool → Except Error Bool
  | [], flag => Except.ok flag
  | r :: rest, flag =>
    match r with
    | Except.error e => Except.error e
    | Except.ok Repr.empty => rpDrain rest true
    | Except.ok _ => rpDrain rest flag

/-- The main fold of `repr_product`, carrying the `mapping`,
`struct_index` and `repr_vec` accumulators of the source. -/
def rpGo : List (Except Error Repr) → List (Option Nat) → Nat → List BTy →
    Except Error Repr
  | [], mapping, structIndex, reprVec =>
    if structIndex = 0 then Except.ok Repr.empty
    else Except.ok (Repr.product ⟨mapping, reprVec⟩)
  | r :: rest, mapping, structIndex, reprVec =>
    match r with
    | Except.error e => Except.error e
    | Except.ok (Repr.ty t) =>
      rpGo rest (mapping ++ [some structIndex]) (structIndex + 1) (reprVec ++ [t])
    | Except.ok (Repr.func f) =>
      rpGo rest (mapping ++ [some structIndex]) (structIndex + 1)
        (reprVec ++ [BTy.ptrToFn f.fparams f.fret])
    | Except.ok Repr.empty => Except.ok Repr.empty
    | Except.ok Repr.irrep =>
      match rpDrain rest false with
      | Except.error e => Except.error e
      | Except.ok true => Except.ok Repr.empty
      | Except.ok false =>
        if structIndex = 0 then Except.ok Repr.empty
        else Except.ok (Repr.product ⟨mapping, reprVec⟩)
    | Except.ok Repr.prop => rpGo rest (mapping ++ [none]) structIndex reprVec
    | Except.ok (Repr.product p) =>
      rpGo rest (mapping ++ [some structIndex]) (structIndex + 1)
        (reprVec ++ [BTy.structOf p.repr])

/-- Embedding of `Codegen::repr_product` (`codegen/tuple.rs`), folding
over the already-computed member representations. A `Repr::Type`,
`Repr::Function` or `Repr::Product` member contributes one physical field
and a slot entry, `Repr::Prop` contributes only a `none` entry,
`Repr::Empty` returns `Repr::Empty` for the whole product at once, and
`Repr::Irrep` drains the rest looking for an empty member and otherwise
breaks out of the loop. When the fold ends with `struct_index == 0` the
source returns `Repr::Empty`. `Codegen::compile_product` in `lib.rs` is
the identical earlier iteration (its irrep arm exhausts the iterator
instead of breaking, with the same resulting value). -/
def repr_product (rs : List (Except Error Repr)) : Except Error Repr :=
  rpGo rs [] 0 []

/-! ## Index literals (`lib.rs` `compile_index`, `codegen/finite.rs`
`build_index`) -/

/-- Model of `Const` (`lib.rs`): a constant rain value. -/
inductive ConstV : Type where
  | value (v : BVal)
  | function (f : Nat)
  | unit
  | contradiction
  | irrep
  deriving DecidableEq

/-- Embedding of `Codegen::compile_index` (`lib.rs`). The source panics
when the type bound is zero and when `type_bound <= this_value`, and
otherwise builds the constant in the scalar type selected by the same
chain of bounds as `compile_finite`; `const_int` takes the value as a
`u64` (the source first truncates a `u128` with an `as` cast) and then
truncates to the width of the integer type. The final branch passes the
two 64-bit words to `const_int_arbitrary_precision` in the order high
word first, which that API reads as the least-significant word first. -/
def compile_index (bound ix : Nat) : PRes ConstV :=
  if bound = 0 then PRes.panicked
  else if bound ≤ ix then PRes.panicked
  else if bound = 1 then PRes.ok ConstV.unit
  else if bound = 2 then PRes.ok (ConstV.value (BVal.intConst 1 (ix % 2 ^ 64 % 2 ^ 1)))
  else if bound < 2 ^ 8 then PRes.ok (ConstV.value (BVal.intConst 8 (ix % 2 ^ 64 % 2 ^ 8)))
  else if bound < 2 ^ 16 then PRes.ok (ConstV.value (BVal.intConst 16 (ix % 2 ^ 64 % 2 ^ 16)))
  else if bound < 2 ^ 32 then PRes.ok (ConstV.value (BVal.intConst 32 (ix % 2 ^ 64 % 2 ^ 32)))
  else if bound < 2 ^ 64 then PRes.ok (ConstV.value (BVal.intConst 64 (ix % 2 ^ 64 % 2 ^ 64)))
  else PRes.ok (ConstV.value (BVal.intConst 128 (ix / 2 ^ 64 % 2 ^ 64 + ix % 2 ^ 64 * 2 ^ 64)))

/-- Embedding of `Codegen::build_index` (`codegen/finite.rs`). The source
dispatches on `repr_finite` of the type bound of the index: an empty type
gives `Val::Contr`, a proposition gives `Val::Unit`, and an integer
representation gives `const_int` of the index value, guarded only by the
`u64::MAX` fit check (the over-64-bit case is an `unimplemented` panic).
No comparison of the index value against the type bound is performed. -/
def build_index (bound ix : Nat) : PRes ValM :=
  match repr_finite bound with
  | Repr.empty => PRes.ok ValM.contr
  | Repr.prop => PRes.ok ValM.unit
  | Repr.ty (BTy.int w) =>
    if ix ≤ 2 ^ 64 - 1 then PRes.ok (ValM.value (BVal.intConst w (ix % 2 ^ w)))
    else PRes.panicked
  | _ => PRes.panicked

/-! ## The index map (`repr.rs`) -/

/-- The `i32` two's-complement image of a `u32`, as produced by the
`ix as i32` cast in `IxMap::push_ix`. -/
def i32ofU32 (n : Nat) : Int :=
  if n < 2 ^ 31 then (n : Int) else (n : Int) - 2 ^ 32

/-- The `u32` read back from an `i32` by the `ix as u32` cast in
`ReprIx::from`. -/
def u32ofI32 (x : Int) : Nat :=
  (x % 2 ^ 32).toNat

/-- Model of `ReprIx`: a physical slot index or the proposition marker. -/
inductive ReprIx : Type where
  | val (n : Nat)
  | prop
  deriving DecidableEq

/-- The sentinel `ReprIx::PROP_IX`. -/
def PROP_IX : Int := -1

/-- Embedding of `impl From<i32> for ReprIx`: `-1` decodes to the
proposition marker and every other entry decodes to a slot index through
the `as u32` cast. -/
def reprIxFrom (x : Int) : ReprIx :=
  if x = PROP_IX then ReprIx.prop else ReprIx.val (u32ofI32 x)

/-- An `IxMap` is a vector of raw `i32` entries. -/
abbrev IxMap : Type := List Int

/-- Embedding of `IxMap::push_ix`. -/
def IxMap.push_ix (m : IxMap) (ix : Nat) : IxMap := m ++ [i32ofU32 ix]

/-- Embedding of `IxMap::push_prop`. -/
def IxMap.push_prop (m : IxMap) : IxMap := m ++ [PROP_IX]

/-- Embedding of `IxMap::get`: the entry at `ix` is looked up (giving
`none` past the end), decoded through `ReprIx::from`, and flattened so a
proposition entry also gives `none`. -/
def IxMap.get (m : IxMap) (ix : Nat) : Option Nat :=
  match m[ix]? with
  | none => none
  | some x =>
    match reprIxFrom x with
    | ReprIx.val n => some n
    | ReprIx.prop => none

/-- Outcome of the product-projection branch of `Codegen::build_app`
(`codegen/function.rs`): either the erased `Val::Unit` or an
`extract_value` at a physical slot of the aggregate. -/
inductive ProjOut : Type where
  | unit
  | extractAt (n : Nat)
  deriving DecidableEq

/-- Embedding of the index-map consultation in the product branch of
`Codegen::build_app` (`codegen/function.rs`): when `p.mapping.get(ix)`
returns `None` the application short-circuits to `Val::Unit` without
touching the aggregate value, otherwise the mapped physical slot is
extracted. -/
def build_app_product_proj (mapping : IxMap) (ix : Nat) : ProjOut :=
  match IxMap.get mapping ix with
  | none => ProjOut.unit
  | some n => ProjOut.extractAt n

/-! ## The codegen context state and the function lowering entry points
(`codegen/function.rs`, `codegen/ternary.rs`) -/

/-- The mutable fields of the `Codegen` context that the lowering entry
points save and restore: the current region, the current function, the
head basic block, the local symbol table (tracked as an opaque handle,
since only identity matters for restoration), the function name counter,
the list of functions added to the module, and the instruction builder
position. `Option.none` stands for the vacant value that `take` leaves
behind. -/
structure CG where
  region : Option Nat
  curr : Option Nat
  head : Option Nat
  locals : Option Nat
  counter : Nat
  module : List Nat
  builderPos : Option Nat

/-- Restore the `Codegen` fields the way step 8 of `build_lambda` and
step 10 of `build_ternary` do: current function, head, builder position
(repositioned only when the old head exists), locals and region. -/
def restoreCG (s : CG) (oc oh ol org : Option Nat) : CG :=
  { s with
    curr := oc
    head := oh
    builderPos := match oh with | some h => some h | none => s.builderPos
    locals := ol
    region := org }

/-- The pi type of a lambda or ternary node, with the representations of
the result type and the parameter types supplied as the values the
recursive `Codegen::repr` calls would produce (`repr` only reads and
fills the representation cache, so it is modelled as pure). -/
structure PiIn where
  resultDepth : Nat
  resultRepr : Except Error Repr
  paramReprs : List (Except Error Repr)

/-- A lambda node as `build_lambda` consumes it: its region depth, its pi
type and the identity of its definition region. -/
structure LamIn where
  depth : Nat
  piTy : PiIn
  defRegionId : Nat

/-- A ternary node as `build_ternary` consumes it: its region depth,
whether the two branches have equal types, and its pi type. -/
structure TernIn where
  depth : Nat
  tysEq : Bool
  piTy : PiIn

/-- The parameter loop of `Codegen::build_function_repr`
(`codegen/function.rs`), carrying `input_reprs`, `input_ixes` and
`has_empty`. After an empty parameter is seen the loop keeps consuming
(and can still fail) but pushes nothing. The `Repr::Function` arm is an
`unimplemented` panic; the `irrep` variant does not exist in the
`repr.rs` enum this file matches on, so it is mapped to the panic class
as an impossible case. -/
def bfrParams : List (Except Error Repr) → List BTy → IxMap → Bool →
    BRes (List BTy × IxMap × Bool)
  | [], reprs, ixes, hasEmpty => BRes.ok (reprs, ixes, hasEmpty)
  | r :: rest, reprs, ixes, hasEmpty =>
    match r with
    | Except.error e => BRes.err e
    | Except.ok (Repr.ty t) =>
      if hasEmpty then bfrParams rest reprs ixes hasEmpty
      else bfrParams rest (reprs ++ [t]) (IxMap.push_ix ixes reprs.length) hasEmpty
    | Except.ok (Repr.func _) => BRes.panicked
    | Except.ok Repr.prop =>
      if hasEmpty then bfrParams rest reprs ixes hasEmpty
      else bfrParams rest reprs (IxMap.push_prop ixes) hasEmpty
    | Except.ok Repr.empty => bfrParams rest reprs ixes true
    | Except.ok Repr.irrep => BRes.panicked
    | Except.ok (Repr.product p) =>
      if hasEmpty then bfrParams rest reprs ixes hasEmpty
      else bfrParams rest (reprs ++ [BTy.structOf p.repr])
        (IxMap.push_ix ixes reprs.length) hasEmpty

/-- Steps 2 and 3 of `build_function_repr` once the result type has a
basic representation `resultTy`: run the parameter loop, collapse to
`Repr::Prop` when an empty parameter was found, and otherwise assemble
the LLVM function type with its index map. -/
def bfrAssemble (params : List (Except Error Repr)) (resultTy : BTy) : BRes Repr :=
  match bfrParams params [] [] false with
  | BRes.err e => BRes.err e
  | BRes.panicked => BRes.panicked
  | BRes.ok (reprs, ixes, hasEmpty) =>
    if hasEmpty then BRes.ok Repr.prop
    else BRes.ok (Repr.func ⟨ixes, reprs, resultTy⟩)

/-- Embedding of `Codegen::build_function_repr` (`codegen/function.rs`).
A non-constant return type is a recoverable `NotImplemented` error. A
return representation of `Repr::Prop` or `Repr::Empty` makes the whole
function representation `Repr::Prop` before any parameter is examined; a
function-represented return is an `unimplemented` panic. -/
def build_function_repr (pi : PiIn) : BRes Repr :=
  if pi.resultDepth ≠ 0 then BRes.err Error.notImplemented
  else
    match pi.resultRepr with
    | Except.error e => BRes.err e
    | Except.ok (Repr.func _) => BRes.panicked
    | Except.ok Repr.prop => BRes.ok Repr.prop
    | Except.ok Repr.empty => BRes.ok Repr.prop
    | Except.ok Repr.irrep => BRes.panicked
    | Except.ok (Repr.ty t) => bfrAssemble pi.paramReprs t
    | Except.ok (Repr.product p) => bfrAssemble pi.paramReprs (BTy.structOf p.repr)

/-- Step 3 of `build_lambda`: the parameter-value vector read off the
prototype index map, binding an erased position directly to `Val::Unit`
and a physical position to the corresponding LLVM function parameter. -/
def paramValsOf (mapping : IxMap) (fid : Nat) : List ValM :=
  mapping.map fun x =>
    match reprIxFrom x with
    | ReprIx.prop => ValM.unit
    | ReprIx.val ix => ValM.value (BVal.paramOf fid ix)

/-- Embedding of `Codegen::build_lambda` (`codegen/function.rs`). The
body lowering (`build_lambda_inline`, which recurses into the general
engine) is supplied as the `inline` argument. Nonzero depth is an
`unimplemented` panic. On the `Repr::Prop` collapse and on a
representation error the region is reset and the early return carries no
emitted function. Otherwise the function is added to the module, region,
builder position, current function, head and locals are replaced, the
body is lowered, and step 8 restores all the saved fields before errors
from the body are propagated in step 9. A body result of `Val::Unit` or
`Val::Contr` is a panic raised before the cleanup runs. -/
def build_lambda (lam : LamIn) (inline : CG → BRes ValM × CG) (s : CG) :
    BRes ValM × CG :=
  if lam.depth ≠ 0 then (BRes.panicked, s)
  else
    let old_region := s.region
    match build_function_repr lam.piTy with
    | BRes.panicked => (BRes.panicked, s)
    | BRes.err e => (BRes.err e, { s with region := old_region })
    | BRes.ok Repr.prop => (BRes.ok ValM.unit, { s with region := old_region })
    | BRes.ok (Repr.func prototype) =>
      let fid := s.counter
      let s1 : CG :=
        { s with
          module := s.module ++ [fid]
          counter := s.counter + 1
          region := some lam.defRegionId }
      let _parameter_values := paramValsOf prototype.mapping fid
      let s2 : CG := { s1 with builderPos := some fid }
      let old_curr := s2.curr
      let old_head := s2.head
      let old_locals := s2.locals
      let s3 : CG := { s2 with curr := some fid, head := some fid, locals := none }
      let res := inline s3
      match res.1 with
      | BRes.ok (ValM.value _) =>
        (BRes.ok (ValM.function fid), restoreCG res.2 old_curr old_head old_locals old_region)
      | BRes.ok (ValM.function _) => (BRes.panicked, res.2)
      | BRes.ok ValM.unit => (BRes.panicked, res.2)
      | BRes.ok ValM.contr => (BRes.panicked, res.2)
      | BRes.ok ValM.irrep => (BRes.panicked, res.2)
      | BRes.panicked => (BRes.panicked, res.2)
      | BRes.err e =>
        (BRes.err e, restoreCG res.2 old_curr old_head old_locals old_region)
    | BRes.ok _ => (BRes.panicked, s)

/-- The parameter loop of `build_ternary` (`codegen/ternary.rs`), which
uses a plain `isize` vector with sentinels `-1` for a proposition
parameter and `-2` for an irrepresentable parameter. -/
def ternParams : List (Except Error Repr) → List BTy → List Int → Bool →
    BRes (List BTy × List Int × Bool)
  | [], reprs, ixes, hasEmpty => BRes.ok (reprs, ixes, hasEmpty)
  | r :: rest, reprs, ixes, hasEmpty =>
    match r with
    | Except.error e => BRes.err e
    | Except.ok (Repr.ty t) =>
      if hasEmpty then ternParams rest reprs ixes hasEmpty
      else ternParams rest (reprs ++ [t]) (ixes ++ [(reprs.length : Int)]) hasEmpty
    | Except.ok (Repr.func _) => BRes.panicked
    | Except.ok Repr.prop =>
      if hasEmpty then ternParams rest reprs ixes hasEmpty
      else ternParams rest reprs (ixes ++ [-1]) hasEmpty
    | Except.ok Repr.empty => ternParams rest reprs ixes true
    | Except.ok Repr.irrep =>
      if hasEmpty then ternParams rest reprs ixes hasEmpty
      else ternParams rest reprs (ixes ++ [-2]) hasEmpty
    | Except.ok (Repr.product p) =>
      if hasEmpty then ternParams rest reprs ixes hasEmpty
      else ternParams rest (reprs ++ [BTy.structOf p.repr])
        (ixes ++ [(reprs.length : Int)]) hasEmpty

/-- Step 5 of `build_ternary`: the parameter-value vector. -/
def ternParamVals (ixes : List Int) (fid : Nat) : List ValM :=
  ixes.map fun x =>
    if x = -1 then ValM.unit
    else if x = -2 then ValM.irrep
    else ValM.value (BVal.paramOf fid x.toNat)

/-- Steps 2.a through 10 of `build_ternary` once the result type has a
basic representation: this is the continuation entered after the early
returns of step 2, which have already left the region taken. Only the
`has_empty` edge case resets the region before its early return. The
boolean selector parameter is fetched with `get_nth_param(0).unwrap()`,
which panics when the function has no physical parameters. -/
def ternCont (pi : PiIn) (inline : CG → BRes ValM × CG) (s0 : CG)
    (old_region : Option Nat) (_resultTy : BTy) : BRes ValM × CG :=
  match ternParams pi.paramReprs [] [] false with
  | BRes.err e => (BRes.err e, s0)
  | BRes.panicked => (BRes.panicked, s0)
  | BRes.ok (inputReprs, inputIxes, hasEmpty) =>
    if hasEmpty then (BRes.ok ValM.unit, { s0 with region := old_region })
    else
      let fid := s0.counter
      let s1 : CG := { s0 with module := s0.module ++ [fid], counter := s0.counter + 1 }
      let _parameter_values := ternParamVals inputIxes fid
      let s2 : CG := { s1 with builderPos := some fid }
      let old_curr := s2.curr
      let old_head := s2.head
      let old_locals := s2.locals
      let s3 : CG := { s2 with curr := some fid, head := some fid, locals := none }
      if inputReprs.length = 0 then (BRes.panicked, s3)
      else
        let res := inline s3
        match res.1 with
        | BRes.panicked => (BRes.panicked, res.2)
        | BRes.ok (ValM.function _) => (BRes.panicked, res.2)
        | BRes.ok _ =>
          (BRes.ok (ValM.function fid), restoreCG res.2 old_curr old_head old_locals old_region)
        | BRes.err e =>
          (BRes.err e, restoreCG res.2 old_curr old_head old_locals old_region)

/-- Embedding of `Codegen::build_ternary` (`codegen/ternary.rs`). The
branch lowering (`build_ternary_inline`) is supplied as the `inline`
argument. Branches of unequal type and nonzero depth are `unimplemented`
panics; at depth zero the region is removed with `take` before the type
is inspected. The early returns of step 2 (non-constant return type, a
representation error, and the `Repr::Empty`, `Repr::Prop` and
`Repr::Irrep` collapses) leave the region taken. -/
def build_ternary (tern : TernIn) (inline : CG → BRes ValM × CG) (s : CG) :
    BRes ValM × CG :=
  if tern.tysEq = false then (BRes.panicked, s)
  else if tern.depth ≠ 0 then (BRes.panicked, s)
  else
    let old_region := s.region
    let s0 : CG := { s with region := none }
    if tern.piTy.resultDepth ≠ 0 then (BRes.err Error.notImplemented, s0)
    else
      match tern.piTy.resultRepr with
      | Except.error e => (BRes.err e, s0)
      | Except.ok (Repr.func _) => (BRes.panicked, s0)
      | Except.ok Repr.empty => (BRes.ok ValM.unit, s0)
      | Except.ok Repr.prop => (BRes.ok ValM.unit, s0)
      | Except.ok Repr.irrep => (BRes.ok ValM.irrep, s0)
      | Except.ok (Repr.ty t) => ternCont tern.piTy inline s0 old_region t
      | Except.ok (Repr.product p) =>
        ternCont tern.piTy inline s0 old_region (BTy.structOf p.repr)

/-! ## The global constant cache (`lib.rs` `compile_const`) -/

/-- The constant cache: rain value identities mapped to compiled
constants. An association list with most-recent-first lookup models the
overwriting `HashMap::insert`. -/
abbrev CMap : Type := List (Nat × ConstV)

/-- Lookup in the constant cache. -/
def lookupC : CMap → Nat → Option ConstV
  | [], _ => none
  | (k, c) :: rest, v => if k = v then some c else lookupC rest v

/-- The state `compile_const` reads and writes: the `consts` member of
the `Codegen` context. -/
structure CCState where
  consts : CMap

/-- Embedding of `Codegen::compile_const` (`lib.rs`). The recursive
`compile_enum` dispatch is supplied as the `enumF` argument, which may
read and extend the cache through its own recursive `compile_const`
calls. The third component of the result counts how many times `enumF`
was invoked by this call. On a hit the cached constant is returned with
no invocation; on a miss the value is compiled once and, on success,
inserted. -/
def compile_const (enumF : Nat → CCState → Except Error ConstV × CCState)
    (s : CCState) (v : Nat) : Except Error ConstV × CCState × Nat :=
  match lookupC s.consts v with
  | some c => (Except.ok c, s, 0)
  | none =>
    match enumF v s with
    | (Except.ok c, s1) => (Except.ok c, { s1 with consts := (v, c) :: s1.consts }, 1)
    | (Except.error e, s1) => (Except.error e, s1, 1)

/-! ## The foreign-call shim builder (`codegen/shim.rs`) -/

/-- The LLVM types the shim builder distinguishes: integers, pointers,
structs and everything else (the `unimplemented` arms). -/
inductive LTy : Type where
  | int (w : Nat)
  | ptrTo (t : LTy)
  | structOf (ts : List LTy)
  | other

/-- The signature of the wrapped function: parameter types and optional
return type. -/
structure FnSig : Type where
  params : List LTy
  ret : Option LTy

/-- A value inside the shim body: a wrapper parameter, a loaded value,
the inner call result, or an integer constant. -/
inductive SVal : Type where
  | param (i : Nat)
  | loadOf (p : SVal)
  | callRes
  | intConst (w v : Nat)

/-- An instruction the shim builder emits, in emission order: builder
positioning, loads, the inner call, the store through the out-pointer
and the return. -/
inductive SInstr : Type where
  | position (b : Nat)
  | load (p : SVal)
  | call (args : List SVal)
  | store (p : SVal) (v : SVal)
  | retI (v : SVal)

/-- The parameter-type translation loop of `build_shim`: a struct
parameter becomes a pointer to that struct, integers and pointers pass
through, and any other type is an `unimplemented` panic. -/
def shimArgTy : LTy → PRes LTy
  | LTy.structOf ts => PRes.ok (LTy.ptrTo (LTy.structOf ts))
  | LTy.int w => PRes.ok (LTy.int w)
  | LTy.ptrTo t => PRes.ok (LTy.ptrTo t)
  | LTy.other => PRes.panicked

/-- The fold of `shimArgTy` over the parameter list. -/
def shimArgTys : List LTy → PRes (List LTy)
  | [] => PRes.ok []
  | t :: rest =>
    match shimArgTy t with
    | PRes.panicked => PRes.panicked
    | PRes.ok t1 =>
      match shimArgTys rest with
      | PRes.panicked => PRes.panicked
      | PRes.ok ts => PRes.ok (t1 :: ts)

/-- The return-type handling of `build_shim`: a struct return appends an
out-pointer parameter and turns the wrapper return into a 32-bit status
integer; integer and pointer returns pass through; other returns are an
`unimplemented` panic. Gives the wrapper parameter types, the wrapper
return type and the conversion flag. -/
def shimRetInfo (rt : LTy) (args0 : List LTy) : PRes (List LTy × LTy × Bool) :=
  match rt with
  | LTy.structOf ts => PRes.ok (args0 ++ [LTy.ptrTo (LTy.structOf ts)], LTy.int 32, true)
  | LTy.int w => PRes.ok (args0, LTy.int w, false)
  | LTy.ptrTo t => PRes.ok (args0, LTy.ptrTo t, false)
  | LTy.other => PRes.panicked

/-- The argument-forwarding loop of the shim body: dispatching on the
wrapper parameter value (whose variant is fixed by its type), an integer
parameter is forwarded directly and a pointer parameter is loaded first;
a struct-valued parameter is a panic (the translation never produces
one). Gives the emitted loads and the inner call arguments, in order. -/
def shimInnerArgs : List LTy → Nat → PRes (List SInstr × List SVal)
  | [], _ => PRes.ok ([], [])
  | t :: rest, i =>
    match t with
    | LTy.int _ =>
      match shimInnerArgs rest (i + 1) with
      | PRes.panicked => PRes.panicked
      | PRes.ok (tr, vs) => PRes.ok (tr, SVal.param i :: vs)
    | LTy.ptrTo _ =>
      match shimInnerArgs rest (i + 1) with
      | PRes.panicked => PRes.panicked
      | PRes.ok (tr, vs) =>
        PRes.ok (SInstr.load (SVal.param i) :: tr, SVal.loadOf (SVal.param i) :: vs)
    | LTy.structOf _ => PRes.panicked
    | LTy.other => PRes.panicked

/-- The output of the shim builder: the wrapper signature and the
instruction trace of its body. -/
structure ShimOut : Type where
  shimParams : List LTy
  shimRet : LTy
  trace : List SInstr

/-- Embedding of `Codegen::build_shim` (`codegen/shim.rs`). The `head`
argument is the `head` field of the `Codegen` context, to which the
builder is repositioned on exit when present. A missing return type on
the wrapped function is an `unimplemented` panic. When the return is
converted, the loop over arguments excludes the appended out-pointer
parameter, the inner call result is stored through that out-pointer and
the wrapper returns the 32-bit constant 0. -/
def build_shim (f : FnSig) (head : Option Nat) : PRes ShimOut :=
  match shimArgTys f.params with
  | PRes.panicked => PRes.panicked
  | PRes.ok args0 =>
    match f.ret with
    | none => PRes.panicked
    | some rt =>
      match shimRetInfo rt args0 with
      | PRes.panicked => PRes.panicked
      | PRes.ok (shimParams, shimRet, converted) =>
        match shimInnerArgs args0 0 with
        | PRes.panicked => PRes.panicked
        | PRes.ok (loadTr, callArgs) =>
          let tr1 := [SInstr.position 0] ++ loadTr ++ [SInstr.call callArgs]
          let tr2 :=
            if converted then
              tr1 ++ [SInstr.store (SVal.param args0.length) SVal.callRes,
                SInstr.retI (SVal.intConst 32 0)]
            else tr1 ++ [SInstr.retI SVal.callRes]
          let tr3 := match head with | some h => tr2 ++ [SInstr.position h] | none => tr2
          PRes.ok ⟨shimParams, shimRet, tr3⟩

/-- Reference translation of one parameter type for the shim claim: a
struct parameter is replaced by a pointer to it, scalars and pointers are
unchanged. -/
def shimConv : LTy → LTy
  | LTy.structOf ts => LTy.ptrTo (LTy.structOf ts)
  | t => t

/-- Reference description of the inner call arguments for the shim
claim: the integer parameter at position `i` is passed through as the
wrapper parameter `i`, every other (pointer-passed) parameter is the
load of wrapper parameter `i`. -/
def innerArgsSpec : List LTy → Nat → List SVal
  | [], _ => []
  | LTy.int _ :: rest, i => SVal.param i :: innerArgsSpec rest (i + 1)
  | _ :: rest, i => SVal.loadOf (SVal.param i) :: innerArgsSpec rest (i + 1)

/-- Reference description of the loads emitted before the inner call:
one load per pointer-passed parameter, in parameter order. -/
def loadTraceSpec : List LTy → Nat → List SInstr
  | [], _ => []
  | LTy.int _ :: rest, i => loadTraceSpec rest (i + 1)
  | _ :: rest, i => SInstr.load (SVal.param i) :: loadTraceSpec rest (i + 1)

/-! ## Shared concrete inputs for the theorems -/

/-- An initial codegen state with a caller region installed. -/
def cgInit : CG :=
  { region := some 7, curr := none, head := none, locals := none,
    counter := 0, module := [], builderPos := none }

/-- A body-lowering stand-in that returns the erased unit value and
leaves the state alone. -/
def idInline : CG → BRes ValM × CG := fun s => (BRes.ok ValM.unit, s)

/-- A pi type whose return type has the empty (uninhabited)
representation. -/
def piEmptyRet : PiIn :=
  { resultDepth := 0, resultRepr := Except.ok Repr.empty, paramReprs := [] }

/-- A pi type whose return type is a mere proposition. -/
def piPropRet : PiIn :=
  { resultDepth := 0, resultRepr := Except.ok Repr.prop, paramReprs := [] }

/-- A depth-zero lambda whose type is `piEmptyRet`. -/
def lamEmptyRet : LamIn := { depth := 0, piTy := piEmptyRet, defRegionId := 0 }

/-- A depth-one (closure) lambda. -/
def lamDepth1 : LamIn := { depth := 1, piTy := piPropRet, defRegionId := 0 }

/-- A depth-zero ternary node with equal branch types whose result type
is a mere proposition. -/
def ternPropRet : TernIn := { depth := 0, tysEq := true, piTy := piPropRet }

/-! ## C1 -/

/-- C1: the claim states that a product whose representation fold ends
with zero physical fields is represented as `Proposition`. The source of
`repr_product` (`codegen/tuple.rs`, and identically `compile_product` in
`lib.rs`) instead returns `Repr::Empty` (the uninhabited marker) when
`struct_index == 0`: a product with a single proposition member, and
likewise the empty product, select the uninhabited representation, which
contradicts the claim and the stated intent of the specification. -/
theorem c1_all_prop_product_selects_empty :
    repr_product [Except.ok Repr.prop] = Except.ok Repr.empty ∧
    repr_product ([] : List (Except Error Repr)) = Except.ok Repr.empty ∧
    Repr.empty ≠ Repr.prop :=
  ⟨rfl, rfl, fun h => Repr.noConfusion h⟩

/-! ## C2 -/

/-- C2 counterexample: the claim asserts an 8-bit scalar for every
cardinality in `[3, 256]`, but the source comparison `value < (1 << 8)`
is strict, so cardinality 256 selects the 16-bit scalar. -/
theorem c2_cardinality_256_counterexample :
    repr_finite 256 = Repr.ty (BTy.int 16) ∧ BTy.int 16 ≠ BTy.int 8 := by
  refine ⟨rfl, fun h => ?_⟩
  injection h with h1
  exact absurd h1 (by decide)

/-- C2 (amended): for every cardinality `n` of a 128-bit unsigned
counter, `repr_finite` yields `Uninhabited` for `n = 0`, `Proposition`
for `n = 1`, the 1-bit scalar for `n = 2`, and otherwise the smallest
scalar among 8, 16, 32, 64 and 128 bits that can hold `n` itself as an
unsigned value (`n < 2 ^ w`) — so the 8-bit range is `[3, 255]` and the
16-bit range is `[256, 65535]`, each boundary cardinality `2 ^ w` being
pushed to the next width. -/
theorem c2_finite_repr_width_ranges (n : Nat) (h : n < 2 ^ 128) :
    repr_finite n = finiteReprRanges n := by
  norm_num at h
  unfold repr_finite finiteReprRanges scalarWidths
  by_cases h0 : n = 0
  · simp [List.find?, h0]
  by_cases h1 : n = 1
  · simp [List.find?, h0, h1]
  by_cases h2 : n = 2
  · simp [List.find?, h0, h1, h2]
  by_cases h8 : n < 256
  · simp [List.find?, h0, h1, h2, h8]
  by_cases h16 : n < 65536
  · simp [List.find?, h0, h1, h2, h8, h16]
  by_cases h32 : n < 4294967296
  · simp [List.find?, h0, h1, h2, h8, h16, h32]
  by_cases h64 : n < 18446744073709551616
  · simp [List.find?, h0, h1, h2, h8, h16, h32, h64]
  · simp [List.find?, h0, h1, h2, h8, h16, h32, h64, h]

/-- C2 witness: the amended theorem applied at the boundary cardinality
256. -/
theorem c2_finite_repr_width_ranges_witness :
    256 < 2 ^ 128 ∧ repr_finite 256 = finiteReprRanges 256 :=
  ⟨by norm_num, c2_finite_repr_width_ranges 256 (by norm_num)⟩

/-! ## C3 -/

/-- C3: the claim states that every save of region, locals, current
function or insertion point is undone on every exit path. In
`build_ternary` (`codegen/ternary.rs`) the region is removed with
`self.region.take()` in step 1, but the early collapse return of step 2
(a result type represented as `Repr::Prop` or `Repr::Empty`) returns
`Ok(Val::Unit)` without restoring it: lowering a depth-zero ternary node
whose result type is a mere proposition leaves the context region
cleared instead of the caller value `some 7`. The early
`Err(NotImplemented)` return for a non-constant return type and the
`Repr::Irrep` collapse take the same unrestored path, as do the
corresponding returns of `build_gamma` (`codegen/gamma.rs`);
`build_lambda` (`codegen/function.rs`) does restore on its early
returns. -/
theorem c3_ternary_collapse_loses_region :
    (build_ternary ternPropRet idInline cgInit).1 = BRes.ok ValM.unit ∧
    (build_ternary ternPropRet idInline cgInit).2.region = none ∧
    cgInit.region = some 7 :=
  ⟨rfl, rfl, rfl⟩

/-! ## C4 -/

/-- C4 counterexample: the claim requires a pi type with an uninhabited
return to collapse to the `Uninhabited` marker, but
`build_function_repr` maps `Repr::Prop | Repr::Empty` both to
`Repr::Prop`. -/
theorem c4_empty_return_counterexample :
    build_function_repr piEmptyRet = BRes.ok Repr.prop ∧
    build_function_repr piEmptyRet ≠ BRes.ok Repr.empty := by
  refine ⟨rfl, fun h => ?_⟩
  have h1 : BRes.ok Repr.prop = BRes.ok Repr.empty := h
  injection h1 with h2
  exact Repr.noConfusion h2

/-- C4 (amended): a pi type whose constant return type is represented as
`Repr::Prop` or as `Repr::Empty` collapses to the single marker
`Repr::Prop` in both cases, and `build_lambda` on a depth-zero lambda of
such a type returns the erased `Val::Unit` with the codegen state
unchanged — in particular no native function is added to the module. -/
theorem c4_erased_return_collapses_to_prop (pi : PiIn) (lam : LamIn)
    (inline : CG → BRes ValM × CG) (s : CG)
    (hres : pi.resultRepr = Except.ok Repr.prop ∨ pi.resultRepr = Except.ok Repr.empty)
    (hdep : pi.resultDepth = 0) (hlam : lam.piTy = pi) (hld : lam.depth = 0) :
    build_function_repr pi = BRes.ok Repr.prop ∧
    build_lambda lam inline s = (BRes.ok ValM.unit, s) := by
  have h1 : build_function_repr pi = BRes.ok Repr.prop := by
    rcases hres with h | h <;> simp [build_function_repr, hdep, h]
  refine ⟨h1, ?_⟩
  simp [build_lambda, hld, hlam, h1]

/-- C4 witness: the amended theorem applied to a lambda whose type
returns the empty type. -/
theorem c4_erased_return_collapses_to_prop_witness :
    build_function_repr piEmptyRet = BRes.ok Repr.prop ∧
    build_lambda lamEmptyRet idInline cgInit = (BRes.ok ValM.unit, cgInit) :=
  c4_erased_return_collapses_to_prop piEmptyRet lamEmptyRet idInline cgInit
    (Or.inr rfl) rfl rfl rfl

/-! ## C5 -/

/-- C5 counterexample: the claim states that lowering an out-of-range
index literal (index 9 against cardinality 6) panics and never produces
a scalar; `build_index` (`codegen/finite.rs`) performs no range check
and produces the 8-bit scalar constant 9. -/
theorem c5_build_index_unchecked_counterexample :
    build_index 6 9 = PRes.ok (ValM.value (BVal.intConst 8 9)) ∧
    build_index 6 9 ≠ PRes.panicked := by
  decide

/-- C5 (amended): `compile_index` (`lib.rs`) triggers the panic class on
every index literal whose value is not below its declared cardinality
(including cardinality 0), whereas `build_index` (`codegen/finite.rs`)
performs no such check: for every scalar-represented cardinality
(`3 ≤ bound`) and every index value fitting in 64 bits it produces the
scalar constant of the representation width, with the value reduced
modulo that width. -/
theorem c5_out_of_range_literal_behavior :
    (∀ bound ix : Nat, bound ≤ ix → compile_index bound ix = PRes.panicked) ∧
    (∀ bound ix : Nat, 3 ≤ bound → ix ≤ 2 ^ 64 - 1 →
      ∃ w, build_index bound ix = PRes.ok (ValM.value (BVal.intConst w (ix % 2 ^ w)))) := by
  constructor
  · intro bound ix h
    unfold compile_index
    by_cases h0 : bound = 0
    · simp [h0]
    · simp [h0, h]
  · intro bound ix h3 h64
    have h0 : ¬bound = 0 := by omega
    have h1 : ¬bound = 1 := by omega
    have h2 : ¬bound = 2 := by omega
    norm_num at h64
    unfold build_index repr_finite
    by_cases h8 : bound < 256
    · exact ⟨8, by simp [h0, h1, h2, h8, h64]⟩
    by_cases h16 : bound < 65536
    · exact ⟨16, by simp [h0, h1, h2, h8, h16, h64]⟩
    by_cases h32 : bound < 4294967296
    · exact ⟨32, by simp [h0, h1, h2, h8, h16, h32, h64]⟩
    by_cases hw64 : bound < 18446744073709551616
    · exact ⟨64, by simp [h0, h1, h2, h8, h16, h32, hw64, h64]⟩
    · exact ⟨128, by simp [h0, h1, h2, h8, h16, h32, hw64, h64]⟩

/-- C5 witness: the amended theorem applied at cardinality 6 with the
out-of-range index 9 (panicking path of `compile_index`) and the
in-range index 4 (scalar path of `build_index`). -/
theorem c5_out_of_range_literal_behavior_witness :
    compile_index 6 9 = PRes.panicked ∧
    ∃ w, build_index 6 4 = PRes.ok (ValM.value (BVal.intConst w (4 % 2 ^ w))) :=
  ⟨c5_out_of_range_literal_behavior.1 6 9 (by norm_num),
   c5_out_of_range_literal_behavior.2 6 4 (by norm_num) (by norm_num)⟩

/-! ## C6 -/

/-- C6 counterexample: the claim states a nonzero-depth lambda is
rejected with a recoverable not-implemented error returned to the
caller; `build_lambda` instead aborts through the panic-class
`unimplemented` macro. -/
theorem c6_closure_rejection_counterexample :
    (build_lambda lamDepth1 idInline cgInit).1 = BRes.panicked ∧
    (build_lambda lamDepth1 idInline cgInit).1 ≠ BRes.err Error.notImplemented := by
  decide

/-- C6 (amended): every lambda of nonzero region depth, and every
ternary node of nonzero region depth, is rejected by the panic-class
`unimplemented` condition rather than by a recoverable error returned to
the caller. -/
theorem c6_nonzero_depth_is_panic_class :
    (∀ (lam : LamIn) (inline : CG → BRes ValM × CG) (s : CG), lam.depth ≠ 0 →
      (build_lambda lam inline s).1 = BRes.panicked) ∧
    (∀ (tern : TernIn) (inline : CG → BRes ValM × CG) (s : CG), tern.depth ≠ 0 →
      (build_ternary tern inline s).1 = BRes.panicked) := by
  constructor
  · intro lam inline s h
    simp [build_lambda, h]
  · intro tern inline s h
    unfold build_ternary
    by_cases ht : tern.tysEq = false
    · simp [ht]
    · simp [ht, h]

/-- C6 witness: the amended theorem applied to a depth-one lambda. -/
theorem c6_nonzero_depth_is_panic_class_witness :
    lamDepth1.depth ≠ 0 ∧ (build_lambda lamDepth1 idInline cgInit).1 = BRes.panicked :=
  ⟨by decide, c6_nonzero_depth_is_panic_class.1 lamDepth1 idInline cgInit (by decide)⟩

/-! ## C7 -/

/-- When the drain flag is already set and no member errors, the drain
loop of the irrep arm returns the flag. -/
theorem rpDrain_all_ok_true : ∀ rs : List (Except Error Repr),
    (∀ r ∈ rs, ∃ x, r = Except.ok x) → rpDrain rs true = Except.ok true
  | [], _ => rfl
  | r :: rest, hok => by
    obtain ⟨x, rfl⟩ := hok r (List.mem_cons_self r rest)
    have ih := rpDrain_all_ok_true rest fun u hu => hok u (List.mem_cons_of_mem _ hu)
    cases x <;> simpa [rpDrain] using ih

/-- When every remaining member has a representation and one of them is
empty, the drain loop of the irrep arm reports an empty member. -/
theorem rpDrain_all_ok_mem : ∀ (rs : List (Except Error Repr)) (flag : Bool),
    (∀ r ∈ rs, ∃ x, r = Except.ok x) → Except.ok Repr.empty ∈ rs →
    rpDrain rs flag = Except.ok true
  | [], _, _, hmem => absurd hmem (List.not_mem_nil _)
  | r :: rest, flag, hok, hmem => by
    obtain ⟨x, rfl⟩ := hok r (List.mem_cons_self r rest)
    have hokr : ∀ u ∈ rest, ∃ y, u = Except.ok y :=
      fun u hu => hok u (List.mem_cons_of_mem _ hu)
    cases x with
    | empty => simpa [rpDrain] using rpDrain_all_ok_true rest hokr
    | ty t =>
      have hmem' : Except.ok Repr.empty ∈ rest := by
        rcases List.mem_cons.mp hmem with h | h
        · exact absurd h (by simp)
        · exact h
      simpa [rpDrain] using rpDrain_all_ok_mem rest flag hokr hmem'
    | func f =>
      have hmem' : Except.ok Repr.empty ∈ rest := by
        rcases List.mem_cons.mp hmem with h | h
        · exact absurd h (by simp)
        · exact h
      simpa [rpDrain] using rpDrain_all_ok_mem rest flag hokr hmem'
    | product p =>
      have hmem' : Except.ok Repr.empty ∈ rest := by
        rcases List.mem_cons.mp hmem with h | h
        · exact absurd h (by simp)
        · exact h
      simpa [rpDrain] using rpDrain_all_ok_mem rest flag hokr hmem'
    | prop =>
      have hmem' : Except.ok Repr.empty ∈ rest := by
        rcases List.mem_cons.mp hmem with h | h
        · exact absurd h (by simp)
        · exact h
      simpa [rpDrain] using rpDrain_all_ok_mem rest flag hokr hmem'
    | irrep =>
      have hmem' : Except.ok Repr.empty ∈ rest := by
        rcases List.mem_cons.mp hmem with h | h
        · exact absurd h (by simp)
        · exact h
      simpa [rpDrain] using rpDrain_all_ok_mem rest flag hokr hmem'

/-- The product fold returns the empty representation whenever one of
the remaining members is empty and every member has a representation,
irrespective of the accumulators. -/
theorem rpGo_absorbs_empty : ∀ (rs : List (Except Error Repr))
    (mapping : List (Option Nat)) (si : Nat) (rv : List BTy),
    (∀ r ∈ rs, ∃ x, r = Except.ok x) → Except.ok Repr.empty ∈ rs →
    rpGo rs mapping si rv = Except.ok Repr.empty
  | [], _, _, _, _, hmem => absurd hmem (List.not_mem_nil _)
  | r :: rest, mapping, si, rv, hok, hmem => by
    obtain ⟨x, rfl⟩ := hok r (List.mem_cons_self r rest)
    have hokr : ∀ u ∈ rest, ∃ y, u = Except.ok y :=
      fun u hu => hok u (List.mem_cons_of_mem _ hu)
    cases x with
    | empty => simp [rpGo]
    | irrep =>
      have hmem' : Except.ok Repr.empty ∈ rest := by
        rcases List.mem_cons.mp hmem with h | h
        · exact absurd h (by simp)
        · exact h
      simp [rpGo, rpDrain_all_ok_mem rest false hokr hmem']
    | ty t =>
      have hmem' : Except.ok Repr.empty ∈ rest := by
        rcases List.mem_cons.mp hmem with h | h
        · exact absurd h (by simp)
        · exact h
      simpa [rpGo] using rpGo_absorbs_empty rest _ _ _ hokr hmem'
    | func f =>
      have hmem' : Except.ok Repr.empty ∈ rest := by
        rcases List.mem_cons.mp hmem with h | h
        · exact absurd h (by simp)
        · exact h
      simpa [rpGo] using rpGo_absorbs_empty rest _ _ _ hokr hmem'
    | prop =>
      have hmem' : Except.ok Repr.empty ∈ rest := by
        rcases List.mem_cons.mp hmem with h | h
        · exact absurd h (by simp)
        · exact h
      simpa [rpGo] using rpGo_absorbs_empty rest _ _ _ hokr hmem'
    | product p =>
      have hmem' : Except.ok Repr.empty ∈ rest := by
        rcases List.mem_cons.mp hmem with h | h
        · exact absurd h (by simp)
        · exact h
      simpa [rpGo] using rpGo_absorbs_empty rest _ _ _ hokr hmem'

/-- C7: a product type with at least one member represented as
`Repr::Empty` (cardinality zero) is itself represented as `Repr::Empty`,
whatever the other members are represented as and wherever in the member
list the empty member occurs — in particular also when it follows an
irrepresentable member, through the drain loop of the irrep arm. The
hypothesis asks every member to have a representation at all (a member
whose representation computation errors propagates that error instead). -/
theorem c7_product_absorbs_empty (rs : List (Except Error Repr))
    (hok : ∀ r ∈ rs, ∃ x, r = Except.ok x)
    (hmem : Except.ok Repr.empty ∈ rs) :
    repr_product rs = Except.ok Repr.empty :=
  rpGo_absorbs_empty rs [] 0 [] hok hmem

/-- C7 witness: the theorem applied to a product whose empty member
follows an irrepresentable member. -/
theorem c7_product_absorbs_empty_witness :
    repr_product [Except.ok Repr.irrep, Except.ok Repr.empty] = Except.ok Repr.empty := by
  refine c7_product_absorbs_empty _ ?_ ?_
  · intro r hr
    rcases List.mem_cons.mp hr with h | h
    · exact ⟨Repr.irrep, h⟩
    rcases List.mem_cons.mp h with h2 | h2
    · exact ⟨Repr.empty, h2⟩
    · exact absurd h2 (List.not_mem_nil _)
  · exact List.mem_cons_of_mem _ (List.mem_cons_self _ _)

/-! ## C8 -/

/-- C8: properties of the global constant cache. The recursive
`compile_enum` dispatch is abstracted as `enumF`; the hypothesis states
that it never removes or changes an existing cache entry (it may only
add entries for the sub-values it compiles — this is how its own nested
`compile_const` calls behave, and the rain graph is a DAG, so the nested
calls never concern `v` itself). Conclusions: a cached value is returned
as-is with zero invocations of the lowering dispatch; after a successful
first compilation a second request returns the same constant from the
cache with zero further invocations; and every entry present before the
call is still present, unchanged, after it. -/
theorem c8_constant_cache_memoization
    (enumF : Nat → CCState → Except Error ConstV × CCState) (s : CCState) (v : Nat)
    (hMono : ∀ (t : CCState) (k : Nat) (c : ConstV),
      lookupC t.consts k = some c → lookupC (enumF v t).2.consts k = some c) :
    (∀ c : ConstV, lookupC s.consts v = some c →
      compile_const enumF s v = (Except.ok c, s, 0)) ∧
    (∀ (c : ConstV) (s1 : CCState) (n : Nat),
      compile_const enumF s v = (Except.ok c, s1, n) →
      compile_const enumF s1 v = (Except.ok c, s1, 0)) ∧
    (∀ (k : Nat) (c : ConstV), lookupC s.consts k = some c →
      lookupC (compile_const enumF s v).2.1.consts k = some c) := by
  refine ⟨?_, ?_, ?_⟩
  · intro c hc
    simp [compile_const, hc]
  · intro c s1 n heq
    unfold compile_const at heq
    cases hl : lookupC s.consts v with
    | some c0 =>
      rw [hl] at heq
      simp only [Prod.mk.injEq, Except.ok.injEq] at heq
      obtain ⟨hc, hs, -⟩ := heq
      subst hc
      subst hs
      simp [compile_const, hl]
    | none =>
      rw [hl] at heq
      rcases he : enumF v s with ⟨r, t⟩
      rw [he] at heq
      cases r with
      | ok c0 =>
        simp only [Prod.mk.injEq, Except.ok.injEq] at heq
        obtain ⟨hc, hs, -⟩ := heq
        subst hc
        subst hs
        simp [compile_const, lookupC]
      | error e => simp at heq
  · intro k c hk
    cases hl : lookupC s.consts v with
    | some c0 => simpa [compile_const, hl] using hk
    | none =>
      have hmk : lookupC (enumF v s).2.consts k = some c := hMono s k c hk
      have hvk : ¬v = k := by
        intro hvk
        rw [hvk] at hl
        rw [hl] at hk
        exact Option.noConfusion hk
      rcases he : enumF v s with ⟨r, t⟩
      rw [he] at hmk
      cases r with
      | ok c0 =>
        simp [compile_const, hl, he, lookupC, hvk]
        exact hmk
      | error e =>
        simp [compile_const, hl, he]
        exact hmk

/-- A lowering dispatch stand-in that compiles every value to the unit
constant and leaves the cache alone. -/
def enumF0 : Nat → CCState → Except Error ConstV × CCState :=
  fun _ t => (Except.ok ConstV.unit, t)

/-- C8 witness: the memoization theorem applied to a cache already
holding value 3, with the trivial lowering dispatch. -/
theorem c8_constant_cache_memoization_witness :
    compile_const enumF0 ⟨[(3, ConstV.unit)]⟩ 3 =
      (Except.ok ConstV.unit, (⟨[(3, ConstV.unit)]⟩ : CCState), 0) :=
  (c8_constant_cache_memoization enumF0 ⟨[(3, ConstV.unit)]⟩ 3
    (fun _ _ _ h => h)).1 ConstV.unit rfl

/-! ## C9 -/

/-- The parameter-type translation succeeds on every recognized
parameter list and is the per-parameter conversion map. -/
theorem shimArgTys_map_conv : ∀ ps : List LTy, (∀ t ∈ ps, t ≠ LTy.other) →
    shimArgTys ps = PRes.ok (ps.map shimConv)
  | [], _ => rfl
  | t :: rest, h => by
    have ih := shimArgTys_map_conv rest fun u hu => h u (List.mem_cons_of_mem _ hu)
    have ht := h t (List.mem_cons_self t rest)
    cases t with
    | int w => simp [shimArgTys, shimArgTy, shimConv, ih]
    | ptrTo t2 => simp [shimArgTys, shimArgTy, shimConv, ih]
    | structOf ts => simp [shimArgTys, shimArgTy, shimConv, ih]
    | other => exact absurd rfl ht

/-- The argument-forwarding loop over the converted parameter types
emits exactly one load per pointer-passed parameter and forwards integer
parameters directly. -/
theorem shimInnerArgs_map_conv : ∀ (ps : List LTy) (i : Nat),
    (∀ t ∈ ps, t ≠ LTy.other) →
    shimInnerArgs (ps.map shimConv) i = PRes.ok (loadTraceSpec ps i, innerArgsSpec ps i)
  | [], _, _ => rfl
  | t :: rest, i, h => by
    have ih := shimInnerArgs_map_conv rest (i + 1)
      fun u hu => h u (List.mem_cons_of_mem _ hu)
    have ht := h t (List.mem_cons_self t rest)
    cases t with
    | int w => simp [shimInnerArgs, shimConv, loadTraceSpec, innerArgsSpec, ih]
    | ptrTo t2 => simp [shimInnerArgs, shimConv, loadTraceSpec, innerArgsSpec, ih]
    | structOf ts => simp [shimInnerArgs, shimConv, loadTraceSpec, innerArgsSpec, ih]
    | other => exact absurd rfl ht

/-- C9: for every wrapped function with a struct (aggregate) return type
and recognized parameter types, the shim builder produces a wrapper
whose parameter list keeps scalar and pointer parameters unchanged,
replaces each aggregate parameter by a pointer to it, and appends one
trailing out-pointer parameter; whose return type is the 32-bit status
integer; and whose body, in order, loads every pointer-passed parameter
(in particular every converted aggregate parameter) before the inner
call, calls the wrapped function on the forwarded arguments, stores the
call result through the trailing out-pointer parameter, and returns the
status constant 0, finally repositioning the builder on the saved head
block when one exists. -/
theorem c9_shim_struct_return_marshaling (ps ts : List LTy) (head : Option Nat)
    (h : ∀ t ∈ ps, t ≠ LTy.other) :
    build_shim ⟨ps, some (LTy.structOf ts)⟩ head =
      PRes.ok ⟨ps.map shimConv ++ [LTy.ptrTo (LTy.structOf ts)], LTy.int 32,
        ([SInstr.position 0] ++ loadTraceSpec ps 0 ++ [SInstr.call (innerArgsSpec ps 0)] ++
          [SInstr.store (SVal.param ps.length) SVal.callRes,
            SInstr.retI (SVal.intConst 32 0)]) ++
          (match head with | some h0 => [SInstr.position h0] | none => [])⟩ := by
  unfold build_shim
  rw [shimArgTys_map_conv ps h]
  simp only [shimRetInfo]
  rw [shimInnerArgs_map_conv ps 0 h]
  cases head with
  | none => simp
  | some h0 => simp

/-- C9 witness: the marshaling theorem applied to the identity function
on a two-field aggregate (an 8-bit and a 16-bit field), the shape
exercised by the `identity_product_compiles_properly` test. -/
theorem c9_shim_struct_return_marshaling_witness :
    build_shim
        ⟨[LTy.structOf [LTy.int 8, LTy.int 16]],
          some (LTy.structOf [LTy.int 8, LTy.int 16])⟩ none =
      PRes.ok ⟨[LTy.ptrTo (LTy.structOf [LTy.int 8, LTy.int 16]),
          LTy.ptrTo (LTy.structOf [LTy.int 8, LTy.int 16])], LTy.int 32,
        [SInstr.position 0, SInstr.load (SVal.param 0),
          SInstr.call [SVal.loadOf (SVal.param 0)],
          SInstr.store (SVal.param 1) SVal.callRes,
          SInstr.retI (SVal.intConst 32 0)]⟩ := by
  have h := c9_shim_struct_return_marshaling [LTy.structOf [LTy.int 8, LTy.int 16]]
    [LTy.int 8, LTy.int 16] none ?_
  · simpa [shimConv, loadTraceSpec, innerArgsSpec] using h
  · intro t ht
    rw [List.mem_singleton] at ht
    subst ht
    exact fun hh => LTy.noConfusion hh

/-! ## C10 -/

/-- C10: `IxMap::get i` returns `some n` exactly when the entry at
position `i` exists and decodes to the physical slot index `n`; it
returns `none` both when `i` is past the end of the map and when the
entry at `i` is the proposition sentinel `PROP_IX`, and in both of those
cases the product-projection branch of `build_app` returns the erased
`Val::Unit` rather than failing — an out-of-bounds logical index is
indistinguishable from an erased field. -/
theorem c10_ixmap_get_conflates_erased_and_oob (m : IxMap) (i : Nat) :
    (∀ n : Nat, IxMap.get m i = some n ↔
      ∃ x, m[i]? = some x ∧ reprIxFrom x = ReprIx.val n) ∧
    (m.length ≤ i →
      IxMap.get m i = none ∧ build_app_product_proj m i = ProjOut.unit) ∧
    (m[i]? = some PROP_IX →
      IxMap.get m i = none ∧ build_app_product_proj m i = ProjOut.unit) := by
  refine ⟨?_, ?_, ?_⟩
  · intro n
    unfold IxMap.get
    cases hx : m[i]? with
    | none => simp
    | some x =>
      cases hr : reprIxFrom x with
      | val k => simp [hr]
      | prop => simp [hr]
  · intro hlen
    have hx : m[i]? = none := List.getElem?_eq_none hlen
    refine ⟨by simp [IxMap.get, hx], ?_⟩
    simp [build_app_product_proj, IxMap.get, hx]
  · intro hx
    have hget : IxMap.get m i = none := by simp [IxMap.get, hx, reprIxFrom]
    exact ⟨hget, by simp [build_app_product_proj, hget]⟩

/-- C10 witness: the theorem applied to the map with one physical slot
and one erased position, at the erased position and at an out-of-bounds
position. -/
theorem c10_ixmap_get_conflates_erased_and_oob_witness :
    IxMap.get [5, -1] 1 = none ∧ build_app_product_proj [5, -1] 1 = ProjOut.unit ∧
    IxMap.get [5, -1] 7 = none ∧ build_app_product_proj [5, -1] 7 = ProjOut.unit := by
  have h1 := (c10_ixmap_get_conflates_erased_and_oob [5, -1] 1).2.2 (by decide)
  have h2 := (c10_ixmap_get_conflates_erased_and_oob [5, -1] 7).2.1 (by norm_num)
  exact ⟨h1.1, h1.2, h2.1, h2.2⟩

end RainLLVM
